import Mathlib

/-!
Verification of the cgit syntax-highlight filter (src/theme/syntax-highlight.py).

The script reads stdin as UTF-8 with replacement, picks a Pygments lexer by a
three-tier fallback (filename+content guess, then content-only guess behind a
shebang test, then the plain-text lexer), renders CSS-class-only HTML and
writes it to stdout.

The script's own logic (decoding policy, argv handling, the try/except
fallback chain at lines 31-39, the single read and single write) is embedded
directly from the source.  The Pygments library itself is not part of the
repository, so the three collaborator operations the spec names in its
external-interface section (guess_lexer_for_filename, guess_lexer, and the
HTML rendering with its container/class options) are modelled from the spec's
description of that contract; such definitions carry a doc comment starting
with "Modelled from the spec".
-/

namespace CgitLG

/-! ## UTF-8 with replacement (models the io.TextIOWrapper at line 14,
encoding="utf-8", errors="replace") -/

/-- Tests whether a byte is a UTF-8 continuation byte (0x80-0xBF). -/
def contB (b : Nat) : Bool := decide (0x80 ≤ b ∧ b < 0xC0)

/-- The replacement character U+FFFD substituted for invalid byte sequences. -/
def replChar : Char := Char.ofNat 0xFFFD

/-- Modelled from the spec: one step of UTF-8 decoding with replacement, the
decoding policy the script installs on stdin (the decoder itself lives in the
Python runtime, not in the repository).  Given a lead byte and the remaining
bytes it yields the decoded character (or U+FFFD) and the bytes not consumed.
Overlong encodings, surrogates and out-of-range values are replaced. -/
def decodeOne (b1 : Nat) (r : List Nat) : Char × List Nat :=
  if b1 < 0x80 then (Char.ofNat b1, r)
  else if b1 < 0xC2 then (replChar, r)
  else if b1 < 0xE0 then
    match r with
    | b2 :: r2 =>
      if contB b2 then (Char.ofNat ((b1 - 0xC0) * 64 + (b2 - 0x80)), r2)
      else (replChar, b2 :: r2)
    | [] => (replChar, [])
  else if b1 < 0xF0 then
    match r with
    | b2 :: b3 :: r3 =>
      if contB b2 && contB b3 then
        if (b1 - 0xE0) * 4096 + (b2 - 0x80) * 64 + (b3 - 0x80) < 0x800 ∨
           (0xD800 ≤ (b1 - 0xE0) * 4096 + (b2 - 0x80) * 64 + (b3 - 0x80) ∧
            (b1 - 0xE0) * 4096 + (b2 - 0x80) * 64 + (b3 - 0x80) < 0xE000) then
          (replChar, b2 :: b3 :: r3)
        else (Char.ofNat ((b1 - 0xE0) * 4096 + (b2 - 0x80) * 64 + (b3 - 0x80)), r3)
      else (replChar, b2 :: b3 :: r3)
    | r' => (replChar, r')
  else if b1 < 0xF5 then
    match r with
    | b2 :: b3 :: b4 :: r4 =>
      if contB b2 && contB b3 && contB b4 then
        if (b1 - 0xF0) * 262144 + (b2 - 0x80) * 4096 + (b3 - 0x80) * 64 + (b4 - 0x80) < 0x10000 ∨
           0x10FFFF < (b1 - 0xF0) * 262144 + (b2 - 0x80) * 4096 + (b3 - 0x80) * 64 + (b4 - 0x80) then
          (replChar, b2 :: b3 :: b4 :: r4)
        else
          (Char.ofNat ((b1 - 0xF0) * 262144 + (b2 - 0x80) * 4096 + (b3 - 0x80) * 64 + (b4 - 0x80)), r4)
      else (replChar, b2 :: b3 :: b4 :: r4)
    | r' => (replChar, r')
  else (replChar, r)

theorem decodeOne_snd_length (b1 : Nat) (r : List Nat) :
    (decodeOne b1 r).2.length ≤ r.length := by
  unfold decodeOne
  repeat' split
  all_goals simp_all
  all_goals omega

/-- Fuel-driven decoding loop; the fuel is an upper bound on the byte count. -/
def decodeLoop : Nat → List Nat → List Char
  | _, [] => []
  | 0, _ :: _ => []
  | fuel + 1, b1 :: r =>
    (decodeOne b1 r).1 :: decodeLoop fuel (decodeOne b1 r).2

/-- Modelled from the spec: full UTF-8 decoding with replacement of a byte
sequence, as performed on the script's stdin. -/
def decodeUtf8 (l : List Nat) : List Char := decodeLoop l.length l

theorem decodeLoop_nil (f : Nat) : decodeLoop f [] = [] := by
  cases f <;> rfl

theorem decodeLoop_congr (f₁ : Nat) :
    ∀ (l : List Nat) (f₂ : Nat), l.length ≤ f₁ → l.length ≤ f₂ →
      decodeLoop f₁ l = decodeLoop f₂ l := by
  induction f₁ with
  | zero =>
    intro l f₂ h1 _
    cases l with
    | nil => rw [decodeLoop_nil, decodeLoop_nil]
    | cons b1 r => simp at h1
  | succ f ih =>
    intro l f₂ h1 h2
    cases l with
    | nil => rw [decodeLoop_nil, decodeLoop_nil]
    | cons b1 r =>
      cases f₂ with
      | zero => simp at h2
      | succ f₂' =>
        simp only [decodeLoop]
        congr 1
        have hr : (decodeOne b1 r).2.length ≤ r.length := decodeOne_snd_length b1 r
        simp only [List.length_cons] at h1 h2
        exact ih _ _ (by omega) (by omega)

theorem decodeUtf8_cons (b1 : Nat) (r : List Nat) :
    decodeUtf8 (b1 :: r) = (decodeOne b1 r).1 :: decodeUtf8 (decodeOne b1 r).2 := by
  have hr : (decodeOne b1 r).2.length ≤ r.length := decodeOne_snd_length b1 r
  simp only [decodeUtf8, List.length_cons, decodeLoop]
  congr 1
  exact decodeLoop_congr r.length _ _ hr le_rfl

/-- Standard UTF-8 encoding of one scalar value, the reference notion of a
valid UTF-8 byte sequence used to state the decoding claims. -/
def encodeChar (c : Char) : List Nat :=
  if c.toNat < 0x80 then [c.toNat]
  else if c.toNat < 0x800 then [0xC0 + c.toNat / 64, 0x80 + c.toNat % 64]
  else if c.toNat < 0x10000 then
    [0xE0 + c.toNat / 4096, 0x80 + c.toNat / 64 % 64, 0x80 + c.toNat % 64]
  else
    [0xF0 + c.toNat / 262144, 0x80 + c.toNat / 4096 % 64, 0x80 + c.toNat / 64 % 64,
     0x80 + c.toNat % 64]

/-- Concatenation of the images of a list under a list-valued function. -/
def catMap {α β : Type} (f : α → List β) : List α → List β
  | [] => []
  | a :: r => f a ++ catMap f r

/-- Standard UTF-8 encoding of a character sequence. -/
def encodeUtf8 (s : List Char) : List Nat := catMap encodeChar s

theorem decode_encode_cons (c : Char) (bs : List Nat) :
    decodeUtf8 (encodeChar c ++ bs) = c :: decodeUtf8 bs := by
  have hv : c.toNat < 55296 ∨ (57343 < c.toNat ∧ c.toNat < 1114112) := c.valid
  have hofn : Char.ofNat c.toNat = c := Char.ofNat_toNat c
  by_cases h1 : c.toNat < 0x80
  · have he : encodeChar c = [c.toNat] := by rw [encodeChar, if_pos h1]
    rw [he, List.cons_append, List.nil_append, decodeUtf8_cons]
    simp only [decodeOne, if_pos h1, hofn]
  · by_cases h2 : c.toNat < 0x800
    · have he : encodeChar c = [0xC0 + c.toNat / 64, 0x80 + c.toNat % 64] := by
        rw [encodeChar, if_neg h1, if_pos h2]
      have c1 : ¬ (0xC0 + c.toNat / 64 < 0x80) := by omega
      have c2 : ¬ (0xC0 + c.toNat / 64 < 0xC2) := by omega
      have c3 : 0xC0 + c.toNat / 64 < 0xE0 := by omega
      have c4 : contB (0x80 + c.toNat % 64) = true := by
        simp only [contB, decide_eq_true_eq]; omega
      have hrec : (0xC0 + c.toNat / 64 - 0xC0) * 64 + (0x80 + c.toNat % 64 - 0x80) = c.toNat := by
        omega
      rw [he, List.cons_append, List.cons_append, List.nil_append, decodeUtf8_cons]
      simp only [decodeOne, if_neg c1, if_neg c2, if_pos c3, c4, if_pos, hrec, hofn]
    · by_cases h3 : c.toNat < 0x10000
      · have he : encodeChar c =
            [0xE0 + c.toNat / 4096, 0x80 + c.toNat / 64 % 64, 0x80 + c.toNat % 64] := by
          rw [encodeChar, if_neg h1, if_neg h2, if_pos h3]
        have c1 : ¬ (0xE0 + c.toNat / 4096 < 0x80) := by omega
        have c2 : ¬ (0xE0 + c.toNat / 4096 < 0xC2) := by omega
        have c3 : ¬ (0xE0 + c.toNat / 4096 < 0xE0) := by omega
        have c4 : 0xE0 + c.toNat / 4096 < 0xF0 := by omega
        have c5 : contB (0x80 + c.toNat / 64 % 64) = true := by
          simp only [contB, decide_eq_true_eq]; omega
        have c6 : contB (0x80 + c.toNat % 64) = true := by
          simp only [contB, decide_eq_true_eq]; omega
        have hrec : (0xE0 + c.toNat / 4096 - 0xE0) * 4096 +
            (0x80 + c.toNat / 64 % 64 - 0x80) * 64 + (0x80 + c.toNat % 64 - 0x80) = c.toNat := by
          omega
        have c7 : ¬ (c.toNat < 0x800 ∨ (0xD800 ≤ c.toNat ∧ c.toNat < 0xE000)) := by omega
        rw [he, List.cons_append, List.cons_append, List.cons_append, List.nil_append,
          decodeUtf8_cons]
        simp only [decodeOne, if_neg c1, if_neg c2, if_neg c3, if_pos c4, c5, c6,
          Bool.and_self, if_pos, hrec, if_neg c7, hofn]
      · have he : encodeChar c =
            [0xF0 + c.toNat / 262144, 0x80 + c.toNat / 4096 % 64, 0x80 + c.toNat / 64 % 64,
             0x80 + c.toNat % 64] := by
          rw [encodeChar, if_neg h1, if_neg h2, if_neg h3]
        have c1 : ¬ (0xF0 + c.toNat / 262144 < 0x80) := by omega
        have c2 : ¬ (0xF0 + c.toNat / 262144 < 0xC2) := by omega
        have c3 : ¬ (0xF0 + c.toNat / 262144 < 0xE0) := by omega
        have c4 : ¬ (0xF0 + c.toNat / 262144 < 0xF0) := by omega
        have c5 : 0xF0 + c.toNat / 262144 < 0xF5 := by omega
        have k1 : contB (0x80 + c.toNat / 4096 % 64) = true := by
          simp only [contB, decide_eq_true_eq]; omega
        have k2 : contB (0x80 + c.toNat / 64 % 64) = true := by
          simp only [contB, decide_eq_true_eq]; omega
        have k3 : contB (0x80 + c.toNat % 64) = true := by
          simp only [contB, decide_eq_true_eq]; omega
        have hrec : (0xF0 + c.toNat / 262144 - 0xF0) * 262144 +
            (0x80 + c.toNat / 4096 % 64 - 0x80) * 4096 + (0x80 + c.toNat / 64 % 64 - 0x80) * 64 +
            (0x80 + c.toNat % 64 - 0x80) = c.toNat := by omega
        have c7 : ¬ (c.toNat < 0x10000 ∨ 0x10FFFF < c.toNat) := by omega
        rw [he, List.cons_append, List.cons_append, List.cons_append, List.cons_append,
          List.nil_append, decodeUtf8_cons]
        simp only [decodeOne, if_neg c1, if_neg c2, if_neg c3, if_neg c4, if_pos c5, k1, k2, k3,
          Bool.and_self, if_pos, hrec, if_neg c7, hofn]

theorem decode_encode (s : List Char) : decodeUtf8 (encodeUtf8 s) = s := by
  induction s with
  | nil => rfl
  | cons c r ih =>
    rw [encodeUtf8, catMap, decode_encode_cons]
    rw [encodeUtf8] at ih
    rw [ih]

/-! ## Lexer selection (source lines 31-39) -/

/-- A Pygments lexer, abstracted: the plain-text lexer is distinguished, any
other lexer is identified by name. -/
inductive Lexer where
  | TextLexer : Lexer
  | named : String → Lexer
  deriving DecidableEq

/-- The two failure classes of the filename-based guess: ClassNotFound and
TypeError, the exceptions caught at lines 33 and 38 of the source.  The spec
names them NoMatch and InvalidArgument in the collaborator contract. -/
inductive GuessErr where
  | classNotFound : GuessErr
  | typeError : GuessErr
  deriving DecidableEq

/-- The shebang test at line 34 of the source: data[:2] == "#!". -/
def shebangCheck (data : String) : Bool := decide (data.data.take 2 = ['#', '!'])

/-- The fallback chain of lines 31-39 as a total function: the value the
variable lexer holds after the try/except block, given the outcome of
guess_lexer_for_filename, the content, and the content-only guesser. -/
def chooseLexer (r : Except GuessErr Lexer) (data : String) (g : String → Lexer) : Lexer :=
  match r with
  | .ok lx => lx
  | .error .classNotFound => if shebangCheck data then g data else .TextLexer
  | .error .typeError => .TextLexer

/-- The fallback chain of lines 31-39 with exception propagation explicit: a
failure class not caught by the two except clauses would surface as an error
value.  Both failure classes of the collaborator contract are caught, so this
never returns an error (theorem selectLexerE_ok). -/
def selectLexerE (r : Except GuessErr Lexer) (data : String) (g : String → Lexer) :
    Except GuessErr Lexer :=
  match r with
  | .ok lx => .ok lx
  | .error .classNotFound => .ok (if shebangCheck data then g data else .TextLexer)
  | .error .typeError => .ok .TextLexer

theorem selectLexerE_ok (r : Except GuessErr Lexer) (data : String) (g : String → Lexer) :
    selectLexerE r data g = .ok (chooseLexer r data g) := by
  cases r with
  | ok lx => rfl
  | error e => cases e <;> rfl

/-- The filename hint of line 18 of the source:
sys.argv[1] if len(sys.argv) > 1 else "". -/
def argFilename (argv : List String) : String :=
  if h : 1 < argv.length then argv[1] else ""

/-! ## Tokenization and HTML rendering (the Pygments collaborator, modelled
from the spec, and the HtmlFormatter configuration of lines 23-29) -/

/-- A classified token: a CSS class (empty for tokens emitted as raw escaped
text) and the lexeme. -/
structure Token where
  cls : List Char
  lex : List Char
  deriving DecidableEq

/-- Modelled from the spec: HTML escaping of text content, so that markup
characters in the document cannot appear raw in the rendered fragment. -/
def escapeChar (c : Char) : List Char :=
  if c = '&' then "&amp;".data
  else if c = '<' then "&lt;".data
  else if c = '>' then "&gt;".data
  else if c = '"' then "&quot;".data
  else if c = '\'' then "&#39;".data
  else [c]

/-- HTML escaping of a character sequence. -/
def esc (l : List Char) : List Char := catMap escapeChar l

/-- Modelled from the spec: rendering of one token as inline markup tagged
with the token's CSS class; tokens that need no class wrapper are emitted as
raw escaped text. -/
def fmtTok (t : Token) : List Char :=
  if t.cls = [] then esc t.lex
  else "<span class=\"".data ++ t.cls ++ "\">".data ++ esc t.lex ++ "</span>".data

/-- Modelled from the spec: the rendered HTML fragment, a single top-level
container carrying the fixed CSS class highlight (the cssclass="highlight"
option at line 27 of the source), with no style block and no inline styles
(the nobackground=True and classprefix="" options at lines 25-26). -/
def renderToks (toks : List Token) : List Char :=
  "<div class=\"highlight\"><pre>".data ++ catMap fmtTok toks ++ "</pre></div>".data

/-- The Pygments collaborator, abstracted to the three operations named in
the spec's external-interface section: the filename-based guess (which can
fail with either failure class), the content-only guess (total, per the spec:
assumed always to succeed, defaulting internally if uncertain), and the
tokenizer a lexer denotes. -/
structure Lib where
  guessForFilename : String → String → Except GuessErr Lexer
  contentGuess : String → Lexer
  tokenize : Lexer → String → List Token

/-- Modelled from the spec: the tokenization contract of the collaborator.
The lexemes of the token stream concatenate back to the document (the spec's
structure-preservation requirement), and token CSS classes are the short
alphanumeric category codes the stylesheet matches. -/
def Lib.Faithful (L : Lib) : Prop :=
  ∀ lx s, catMap Token.lex (L.tokenize lx s) = s.data ∧
    ∀ t ∈ L.tokenize lx s, ∀ c ∈ t.cls, c.isAlphanum = true

/-- The filter's core contract from the spec: render(content, filename_hint).
Lexer selection is the source's fallback chain; tokenization and HTML
rendering are the modelled collaborator. -/
def render (L : Lib) (data fname : String) : String :=
  ⟨renderToks (L.tokenize (chooseLexer (L.guessForFilename fname data) data L.contentGuess) data)⟩

/-- The same pipeline with exception propagation explicit, used to state that
no failure escapes the filter boundary. -/
def renderE (L : Lib) (data fname : String) : Except GuessErr String :=
  (selectLexerE (L.guessForFilename fname data) data L.contentGuess).map
    (fun lx => (⟨renderToks (L.tokenize lx data)⟩ : String))

/-! ## The process (one invocation of the script) -/

/-- Observable I/O events of one run: the single stdin read at line 17 and
the single stdout write at line 41. -/
inductive Ev where
  | readStdin : Ev
  | wroteStdout : String → Ev
  deriving DecidableEq

/-- One invocation of the script: stdin is either the byte sequence read or
an unrecoverable read failure.  Returns the event trace and the exit code.
The Python interpreter exits 0 when the script runs to completion and
non-zero when an uncaught exception (here only the fatal I/O failure)
terminates it. -/
def process (L : Lib) (stdin : Except Unit (List Nat)) (argv : List String) :
    List Ev × Nat :=
  match stdin with
  | .error _ => ([], 1)
  | .ok bytes =>
    ([Ev.readStdin,
      Ev.wroteStdout (render L (⟨decodeUtf8 bytes⟩ : String) (argFilename argv))], 0)


/-! ## Substring-absence machinery: occurrence of a three-character pattern -/

/-- Tests whether the three-character pattern a b c occurs contiguously in a
character list (theorem hasTriple_iff_occurs identifies this with the infix
relation). -/
def hasTriple (a b c : Char) : List Char → Bool
  | x :: y :: z :: r =>
    (decide (x = a) && decide (y = b) && decide (z = c)) || hasTriple a b c (y :: z :: r)
  | _ => false

def take3Eq (a b c : Char) : List Char → Bool
  | x :: y :: z :: _ => decide (x = a) && decide (y = b) && decide (z = c)
  | _ => false

theorem hasTriple_cons (a b c x : Char) (l : List Char) :
    hasTriple a b c (x :: l) = (take3Eq a b c (x :: l) || hasTriple a b c l) := by
  match l with
  | [] => rfl
  | [y] => rfl
  | y :: z :: r => rfl

theorem hasTriple_cons_ne (a b c x : Char) (l : List Char) (h : x ≠ a) :
    hasTriple a b c (x :: l) = hasTriple a b c l := by
  rw [hasTriple_cons]
  have : take3Eq a b c (x :: l) = false := by
    match l with
    | [] => rfl
    | [y] => rfl
    | y :: z :: r => simp [take3Eq, h]
  rw [this, Bool.false_or]

theorem hasTriple_cons₂_ne (a b c x y : Char) (l : List Char) (h : y ≠ b) :
    hasTriple a b c (x :: y :: l) = hasTriple a b c (y :: l) := by
  rw [hasTriple_cons]
  have : take3Eq a b c (x :: y :: l) = false := by
    match l with
    | [] => rfl
    | z :: r => simp [take3Eq, h]
  rw [this, Bool.false_or]

theorem hasTriple_skip (a b c : Char) (m l : List Char) (h : ∀ x ∈ m, x ≠ a) :
    hasTriple a b c (m ++ l) = hasTriple a b c l := by
  induction m with
  | nil => rfl
  | cons x m' ih =>
    rw [List.cons_append, hasTriple_cons_ne a b c x _ (h x (List.mem_cons_self x m'))]
    exact ih (fun y hy => h y (List.mem_cons_of_mem x hy))

theorem hasTriple_skip_third (a b c : Char) (m l : List Char)
    (hm : ∀ x ∈ m, x ≠ c) (hl : ∀ x ∈ l.take 2, x ≠ c) :
    hasTriple a b c (m ++ l) = hasTriple a b c l := by
  induction m with
  | nil => rfl
  | cons x m' ih =>
    have hm' : ∀ y ∈ m', y ≠ c := fun y hy => hm y (List.mem_cons_of_mem x hy)
    rw [List.cons_append, hasTriple_cons]
    have h3 : take3Eq a b c (x :: (m' ++ l)) = false := by
      match hm'2 : m' with
      | [] =>
        match hl2 : l with
        | [] => rfl
        | [w] => rfl
        | w1 :: w2 :: r =>
          have : w2 ≠ c := hl w2 (by simp [hl2])
          simp [take3Eq, this]
      | [y] =>
        match hl2 : l with
        | [] => rfl
        | w1 :: r =>
          have : w1 ≠ c := hl w1 (by simp [hl2])
          simp [take3Eq, this]
      | y :: z :: r =>
        have : z ≠ c := hm' z (by simp)
        simp [take3Eq, this]
    rw [h3, Bool.false_or]
    exact ih hm'

theorem hasTriple_iff_occurs (a b c : Char) (l : List Char) :
    hasTriple a b c l = true ↔ [a, b, c] <:+: l := by
  constructor
  · intro h
    induction l with
    | nil => simp [hasTriple] at h
    | cons x l' ih =>
      rw [hasTriple_cons] at h
      rcases (Bool.or_eq_true _ _).mp h with h1 | h2
      · match l', h1 with
        | y :: z :: r, h1 =>
          simp only [take3Eq, Bool.and_eq_true, decide_eq_true_eq] at h1
          obtain ⟨⟨hx, hy⟩, hz⟩ := h1
          subst hx; subst hy; subst hz
          exact ⟨[], r, rfl⟩
      · exact List.infix_cons (ih h2)
  · rintro ⟨s, t, hst⟩
    subst hst
    induction s with
    | nil => simp [hasTriple]
    | cons x s' ih =>
      rw [List.cons_append, List.cons_append, hasTriple_cons, ih, Bool.or_true]

def tail2 (m : List Char) : List Char := m.drop (m.length - 2)

theorem take3Eq_false_of_second (a b c x y : Char) (l : List Char) (h : y ≠ b) :
    take3Eq a b c (x :: y :: l) = false := by
  match l with
  | [] => rfl
  | z :: r => simp [take3Eq, h]

theorem hasTriple_append (a b c : Char) (m l : List Char) :
    hasTriple a b c (m ++ l) =
      (hasTriple a b c m || hasTriple a b c (tail2 m ++ l)) := by
  induction m with
  | nil => simp [hasTriple, tail2]
  | cons x m' ih =>
    rw [List.cons_append, hasTriple_cons, ih]
    match m' with
    | [] =>
      rw [show tail2 ([] : List Char) = [] from rfl, show tail2 [x] = [x] from rfl]
      rw [List.nil_append, List.cons_append, List.nil_append, hasTriple_cons]
      rw [hasTriple_cons a b c x l]
      cases take3Eq a b c (x :: l) <;> cases hasTriple a b c l <;> rfl
    | [y] =>
      rw [show tail2 [y] = [y] from rfl, show tail2 [x, y] = [x, y] from rfl]
      have hy : hasTriple a b c ([y] ++ l) = hasTriple a b c (y :: l) := rfl
      have hxy : hasTriple a b c ([x, y] ++ l) = hasTriple a b c (x :: y :: l) := rfl
      rw [hy, hxy]
      rw [show take3Eq a b c (x :: ([y] ++ l)) = take3Eq a b c (x :: y :: l) from rfl]
      rw [show hasTriple a b c [y] = false from rfl]
      rw [show hasTriple a b c [x, y] = false from rfl]
      have hstep : hasTriple a b c (x :: y :: l) =
          (take3Eq a b c (x :: y :: l) || hasTriple a b c (y :: l)) := hasTriple_cons a b c x _
      rw [hstep]
      cases take3Eq a b c (x :: y :: l) <;> cases hasTriple a b c (y :: l) <;> rfl
    | y :: z :: m'' =>
      have ht : take3Eq a b c (x :: y :: z :: (m'' ++ l)) =
          take3Eq a b c (x :: y :: z :: m'') := rfl
      have h2 : tail2 (x :: y :: z :: m'') = tail2 (y :: z :: m'') := by
        simp only [tail2, List.length_cons]
        rw [show (m''.length + 1 + 1 + 1 - 2) = (m''.length + 1 + 1 - 2) + 1 by omega]
        rw [List.drop_succ_cons]
      have hx : hasTriple a b c (x :: y :: z :: m'') =
          (take3Eq a b c (x :: y :: z :: m'') || hasTriple a b c (y :: z :: m'')) :=
        hasTriple_cons a b c x _
      rw [show (y :: z :: m'') ++ l = y :: z :: (m'' ++ l) from rfl] at *
      rw [ht, h2, hx]
      cases take3Eq a b c (x :: y :: z :: m'') <;> cases hasTriple a b c (y :: z :: m'') <;>
        cases hasTriple a b c (tail2 (y :: z :: m'') ++ l) <;> rfl

theorem hasTriple_skip_second (a b c : Char) (m l : List Char)
    (hm : ∀ x ∈ m, x ≠ b) (hl : ∀ x ∈ l.take 1, x ≠ b) :
    hasTriple a b c (m ++ l) = hasTriple a b c l := by
  induction m with
  | nil => rfl
  | cons x m' ih =>
    have hm' : ∀ y ∈ m', y ≠ b := fun y hy => hm y (List.mem_cons_of_mem x hy)
    rw [List.cons_append, hasTriple_cons]
    have h3 : take3Eq a b c (x :: (m' ++ l)) = false := by
      match hm2 : m' with
      | [] =>
        match hl2 : l with
        | [] => rfl
        | w1 :: r =>
          have hw : w1 ≠ b := hl w1 (by simp [hl2])
          exact take3Eq_false_of_second a b c x w1 r hw
      | y :: r =>
        have hy : y ≠ b := hm' y (by simp)
        exact take3Eq_false_of_second a b c x y (r ++ l) hy
    rw [h3, Bool.false_or]
    exact ih hm'

/-! ## Character-level safety facts about the rendered pieces -/

theorem mem_escapeChar (c x : Char) (hx : x ∈ escapeChar c) : x ≠ '<' ∧ x ≠ '"' := by
  unfold escapeChar at hx
  split_ifs at hx with h1 h2 h3 h4 h5
  · rw [show ("&amp;".data : List Char) = ['&', 'a', 'm', 'p', ';'] from rfl] at hx
    fin_cases hx <;> exact ⟨by decide, by decide⟩
  · rw [show ("&lt;".data : List Char) = ['&', 'l', 't', ';'] from rfl] at hx
    fin_cases hx <;> exact ⟨by decide, by decide⟩
  · rw [show ("&gt;".data : List Char) = ['&', 'g', 't', ';'] from rfl] at hx
    fin_cases hx <;> exact ⟨by decide, by decide⟩
  · rw [show ("&quot;".data : List Char) = ['&', 'q', 'u', 'o', 't', ';'] from rfl] at hx
    fin_cases hx <;> exact ⟨by decide, by decide⟩
  · rw [show ("&#39;".data : List Char) = ['&', '#', '3', '9', ';'] from rfl] at hx
    fin_cases hx <;> exact ⟨by decide, by decide⟩
  · rw [List.mem_singleton] at hx
    subst hx
    exact ⟨h2, h4⟩

theorem mem_esc (l : List Char) (x : Char) (hx : x ∈ esc l) : x ≠ '<' ∧ x ≠ '"' := by
  induction l with
  | nil => simp [esc, catMap] at hx
  | cons c r ih =>
    rw [esc, catMap] at hx
    rcases List.mem_append.mp hx with h | h
    · exact mem_escapeChar c x h
    · exact ih h

theorem alnum_ne (c : Char) (h : c.isAlphanum = true) :
    c ≠ '<' ∧ c ≠ '"' ∧ c ≠ '=' ∧ c ≠ '>' := by
  refine ⟨?_, ?_, ?_, ?_⟩ <;> rintro rfl <;> exact absurd h (by decide)

theorem take2_body_no_quote (toks : List Token) :
    ∀ x ∈ (catMap fmtTok toks ++ "</pre></div>".data).take 2, x ≠ '"' := by
  induction toks with
  | nil =>
    intro x hx
    rw [show catMap fmtTok [] = [] from rfl, List.nil_append] at hx
    rw [show ("</pre></div>".data).take 2 = ['<', '/'] from rfl] at hx
    fin_cases hx <;> decide
  | cons t toks' ih =>
    intro x hx
    rw [catMap, List.append_assoc] at hx
    by_cases hc : t.cls = []
    · rw [fmtTok, if_pos hc] at hx
      rw [List.take_append_eq_append_take] at hx
      rcases List.mem_append.mp hx with h | h
      · exact (mem_esc _ _ (List.take_subset _ _ h)).2
      · have hk : 2 - (esc t.lex).length ≤ 2 := by omega
        have heq : (catMap fmtTok toks' ++ "</pre></div>".data).take (2 - (esc t.lex).length) =
            ((catMap fmtTok toks' ++ "</pre></div>".data).take 2).take
              (2 - (esc t.lex).length) := by
          rw [List.take_take]
          congr 1
          omega
        rw [heq] at h
        exact ih x (List.take_subset _ _ h)
    · rw [fmtTok, if_neg hc] at hx
      simp only [List.append_assoc] at hx
      rw [List.take_append_eq_append_take] at hx
      rw [show (("<span class=\"".data : List Char)).take 2 = ['<', 's'] from rfl] at hx
      rw [show (2 - ("<span class=\"".data : List Char).length) = 0 from rfl] at hx
      rw [List.take_zero, List.append_nil] at hx
      fin_cases hx <;> decide

/-! ## Absence of the patterns in the rendered fragment -/

theorem bodyA (toks : List Token)
    (hcls : ∀ t ∈ toks, ∀ c ∈ t.cls, c.isAlphanum = true) :
    hasTriple '<' 's' 't' (catMap fmtTok toks ++ "</pre></div>".data) = false := by
  induction toks with
  | nil => decide
  | cons t toks' ih =>
    have hrest := ih (fun t' ht' => hcls t' (List.mem_cons_of_mem t ht'))
    rw [catMap, List.append_assoc]
    by_cases hc : t.cls = []
    · rw [fmtTok, if_pos hc]
      rw [hasTriple_skip _ _ _ _ _ (fun x hx => (mem_esc _ _ hx).1)]
      exact hrest
    · rw [fmtTok, if_neg hc]
      simp only [List.append_assoc]
      rw [hasTriple_append]
      rw [show hasTriple '<' 's' 't' ("<span class=\"".data) = false from by decide]
      rw [show tail2 ("<span class=\"".data) = ['=', '"'] from by decide]
      rw [Bool.false_or, List.cons_append, List.cons_append, List.nil_append]
      rw [hasTriple_cons_ne _ _ _ _ _ (by decide), hasTriple_cons_ne _ _ _ _ _ (by decide)]
      have hclsA : ∀ x ∈ t.cls, x ≠ '<' :=
        fun x hx => (alnum_ne x (hcls t (List.mem_cons_self t toks') x hx)).1
      rw [hasTriple_skip _ _ _ _ _ hclsA]
      rw [List.cons_append, List.cons_append, List.nil_append]
      rw [hasTriple_cons_ne _ _ _ _ _ (by decide), hasTriple_cons_ne _ _ _ _ _ (by decide)]
      rw [hasTriple_skip _ _ _ _ _ (fun x hx => (mem_esc _ _ hx).1)]
      rw [hasTriple_append]
      rw [show hasTriple '<' 's' 't' ("</span>".data) = false from by decide]
      rw [show tail2 ("</span>".data) = ['n', '>'] from by decide]
      rw [Bool.false_or, List.cons_append, List.cons_append, List.nil_append]
      rw [hasTriple_cons_ne _ _ _ _ _ (by decide), hasTriple_cons_ne _ _ _ _ _ (by decide)]
      exact hrest

theorem bodyB (toks : List Token)
    (hcls : ∀ t ∈ toks, ∀ c ∈ t.cls, c.isAlphanum = true) :
    hasTriple 'e' '=' '"' (catMap fmtTok toks ++ "</pre></div>".data) = false := by
  induction toks with
  | nil => decide
  | cons t toks' ih =>
    have hrest := ih (fun t' ht' => hcls t' (List.mem_cons_of_mem t ht'))
    rw [catMap, List.append_assoc]
    by_cases hc : t.cls = []
    · rw [fmtTok, if_pos hc]
      rw [hasTriple_skip_third _ _ _ _ _ (fun x hx => (mem_esc _ _ hx).2)
        (take2_body_no_quote toks')]
      exact hrest
    · rw [fmtTok, if_neg hc]
      simp only [List.append_assoc]
      rw [hasTriple_append]
      rw [show hasTriple 'e' '=' '"' ("<span class=\"".data) = false from by decide]
      rw [show tail2 ("<span class=\"".data) = ['=', '"'] from by decide]
      rw [Bool.false_or, List.cons_append, List.cons_append, List.nil_append]
      rw [hasTriple_cons_ne _ _ _ _ _ (by decide), hasTriple_cons_ne _ _ _ _ _ (by decide)]
      rw [List.cons_append, List.cons_append, List.nil_append]
      have hclsB : ∀ x ∈ t.cls, x ≠ '=' :=
        fun x hx => (alnum_ne x (hcls t (List.mem_cons_self t toks') x hx)).2.2.1
      rw [hasTriple_skip_second _ _ _ _ _ hclsB (by intro x hx; simp at hx; subst hx; decide)]
      rw [hasTriple_cons_ne _ _ _ _ _ (by decide), hasTriple_cons_ne _ _ _ _ _ (by decide)]
      have htk : ∀ x ∈ (("</span>".data : List Char) ++
          (catMap fmtTok toks' ++ "</pre></div>".data)).take 2, x ≠ '"' := by
        intro x hx
        rw [show ("</span>".data : List Char) = ['<', '/', 's', 'p', 'a', 'n', '>'] from rfl] at hx
        simp only [List.cons_append, List.nil_append] at hx
        rw [show (('<' :: '/' :: 's' :: 'p' :: 'a' :: 'n' :: '>' ::
          (catMap fmtTok toks' ++ "</pre></div>".data)).take 2) = ['<', '/'] from rfl] at hx
        fin_cases hx <;> decide
      rw [hasTriple_skip_third _ _ _ _ _ (fun x hx => (mem_esc _ _ hx).2) htk]
      rw [hasTriple_append]
      rw [show hasTriple 'e' '=' '"' ("</span>".data) = false from by decide]
      rw [show tail2 ("</span>".data) = ['n', '>'] from by decide]
      rw [Bool.false_or, List.cons_append, List.cons_append, List.nil_append]
      rw [hasTriple_cons_ne _ _ _ _ _ (by decide), hasTriple_cons_ne _ _ _ _ _ (by decide)]
      exact hrest

theorem renderToks_noA (toks : List Token)
    (hcls : ∀ t ∈ toks, ∀ c ∈ t.cls, c.isAlphanum = true) :
    hasTriple '<' 's' 't' (renderToks toks) = false := by
  rw [renderToks, List.append_assoc, hasTriple_append]
  rw [show hasTriple '<' 's' 't' ("<div class=\"highlight\"><pre>".data) = false from by decide]
  rw [show tail2 ("<div class=\"highlight\"><pre>".data) = ['e', '>'] from by decide]
  rw [Bool.false_or, List.cons_append, List.cons_append, List.nil_append]
  rw [hasTriple_cons_ne _ _ _ _ _ (by decide), hasTriple_cons_ne _ _ _ _ _ (by decide)]
  exact bodyA toks hcls

theorem renderToks_noB (toks : List Token)
    (hcls : ∀ t ∈ toks, ∀ c ∈ t.cls, c.isAlphanum = true) :
    hasTriple 'e' '=' '"' (renderToks toks) = false := by
  rw [renderToks, List.append_assoc, hasTriple_append]
  rw [show hasTriple 'e' '=' '"' ("<div class=\"highlight\"><pre>".data) = false from by decide]
  rw [show tail2 ("<div class=\"highlight\"><pre>".data) = ['e', '>'] from by decide]
  rw [Bool.false_or, List.cons_append, List.cons_append, List.nil_append]
  rw [hasTriple_cons₂_ne _ _ _ _ _ _ (by decide)]
  rw [hasTriple_cons_ne _ _ _ _ _ (by decide)]
  exact bodyB toks hcls

/-! ## Visible text content of the fragment -/

/-- The visible text of an HTML fragment: the characters outside tags.  The
Boolean state tracks whether the scan is inside a tag. -/
def visText : Bool → List Char → List Char
  | _, [] => []
  | false, c :: r => if c = '<' then visText true r else c :: visText false r
  | true, c :: r => if c = '>' then visText false r else visText true r

/-- The tag-scanner state after consuming a character list. -/
def visSt : Bool → List Char → Bool
  | s, [] => s
  | false, c :: r => if c = '<' then visSt true r else visSt false r
  | true, c :: r => if c = '>' then visSt false r else visSt true r

theorem visText_append (l₁ : List Char) :
    ∀ (s : Bool) (l₂ : List Char),
      visText s (l₁ ++ l₂) = visText s l₁ ++ visText (visSt s l₁) l₂ := by
  induction l₁ with
  | nil => intro s l₂; simp [visText, visSt]
  | cons c r ih =>
    intro s l₂
    cases s with
    | false =>
      by_cases h : c = '<'
      · simp [visText, visSt, h, ih]
      · simp [visText, visSt, h, ih]
    | true =>
      by_cases h : c = '>'
      · simp [visText, visSt, h, ih]
      · simp [visText, visSt, h, ih]

theorem visSt_append (l₁ : List Char) :
    ∀ (s : Bool) (l₂ : List Char), visSt s (l₁ ++ l₂) = visSt (visSt s l₁) l₂ := by
  induction l₁ with
  | nil => intro s l₂; simp [visSt]
  | cons c r ih =>
    intro s l₂
    cases s with
    | false => by_cases h : c = '<' <;> simp [visSt, h, ih]
    | true => by_cases h : c = '>' <;> simp [visSt, h, ih]

theorem visText_no_lt (m : List Char) (h : ∀ x ∈ m, x ≠ '<') :
    visText false m = m ∧ visSt false m = false := by
  induction m with
  | nil => exact ⟨rfl, rfl⟩
  | cons c r ih =>
    have hc : c ≠ '<' := h c (List.mem_cons_self c r)
    have ihr := ih (fun y hy => h y (List.mem_cons_of_mem c hy))
    constructor
    · simp [visText, hc, ihr.1]
    · simp [visSt, hc, ihr.2]

theorem visTag_skip (m : List Char) (h : ∀ x ∈ m, x ≠ '>') :
    visText true m = [] ∧ visSt true m = true := by
  induction m with
  | nil => exact ⟨rfl, rfl⟩
  | cons c r ih =>
    have hc : c ≠ '>' := h c (List.mem_cons_self c r)
    have ihr := ih (fun y hy => h y (List.mem_cons_of_mem c hy))
    constructor
    · simp [visText, hc, ihr.1]
    · simp [visSt, hc, ihr.2]

theorem visText_fmtTok (t : Token) (hcls : ∀ c ∈ t.cls, c.isAlphanum = true) :
    visText false (fmtTok t) = esc t.lex ∧ visSt false (fmtTok t) = false := by
  by_cases hc : t.cls = []
  · rw [fmtTok, if_pos hc]
    exact visText_no_lt _ (fun x hx => (mem_esc _ _ hx).1)
  · rw [fmtTok, if_neg hc]
    simp only [List.append_assoc]
    have hcl := visTag_skip t.cls (fun x hx => (alnum_ne x (hcls x hx)).2.2.2)
    have hesc := visText_no_lt (esc t.lex) (fun x hx => (mem_esc _ _ hx).1)
    constructor
    · rw [visText_append]
      rw [show visText false ("<span class=\"".data) = [] from by decide]
      rw [show visSt false ("<span class=\"".data) = true from by decide]
      rw [List.nil_append, visText_append, hcl.1, hcl.2, List.nil_append]
      rw [visText_append]
      rw [show visText true (['"', '>'] : List Char) = [] from by decide]
      rw [show visSt true (['"', '>'] : List Char) = false from by decide]
      rw [List.nil_append, visText_append, hesc.1, hesc.2]
      rw [show visText false (['<', '/', 's', 'p', 'a', 'n', '>'] : List Char) = [] from by decide]
      rw [List.append_nil]
    · rw [visSt_append]
      rw [show visSt false ("<span class=\"".data) = true from by decide]
      rw [visSt_append, hcl.2, visSt_append]
      rw [show visSt true (['"', '>'] : List Char) = false from by decide]
      rw [visSt_append, hesc.2]
      rw [show visSt false (['<', '/', 's', 'p', 'a', 'n', '>'] : List Char) = false from by decide]

theorem visText_body (toks : List Token)
    (hcls : ∀ t ∈ toks, ∀ c ∈ t.cls, c.isAlphanum = true) :
    visText false (catMap fmtTok toks ++ "</pre></div>".data) =
      catMap (fun t => esc t.lex) toks := by
  induction toks with
  | nil => decide
  | cons t toks' ih =>
    have hrest := ih (fun t' ht' => hcls t' (List.mem_cons_of_mem t ht'))
    have hft := visText_fmtTok t (hcls t (List.mem_cons_self t toks'))
    rw [catMap, List.append_assoc, visText_append, hft.1, hft.2, hrest, catMap]

/-! ## Newline counting -/

theorem count_nl_escapeChar (c : Char) :
    List.count '\n' (escapeChar c) = List.count '\n' [c] := by
  unfold escapeChar
  split_ifs with h1 h2 h3 h4 h5
  · subst h1; decide
  · subst h2; decide
  · subst h3; decide
  · subst h4; decide
  · subst h5; decide
  · rfl

theorem count_nl_esc (l : List Char) :
    List.count '\n' (esc l) = List.count '\n' l := by
  induction l with
  | nil => rfl
  | cons c r ih =>
    rw [esc, catMap] at *
    rw [List.count_append, count_nl_escapeChar, ih]
    rw [show (c :: r) = [c] ++ r from rfl, List.count_append]

theorem count_nl_body (toks : List Token) :
    List.count '\n' (catMap (fun t => esc t.lex) toks) =
      List.count '\n' (catMap Token.lex toks) := by
  induction toks with
  | nil => rfl
  | cons t toks' ih =>
    rw [catMap, catMap, List.count_append, List.count_append, count_nl_esc, ih]

/-! ## Container decomposition -/

theorem renderToks_container (toks : List Token) :
    renderToks toks = "<div class=\"highlight\">".data ++
      (("<pre>".data ++ catMap fmtTok toks ++ "</pre>".data) ++ "</div>".data) := by
  rw [renderToks]
  have hO : ("<div class=\"highlight\"><pre>".data : List Char) =
      "<div class=\"highlight\">".data ++ "<pre>".data := by decide
  have hC : ("</pre></div>".data : List Char) = "</pre>".data ++ "</div>".data := by decide
  rw [hO, hC]
  simp [List.append_assoc]

/-! ## A concrete collaborator used by the witnesses -/

/-- A minimal faithful collaborator: the filename guess always reports
ClassNotFound, the content guess returns the plain-text lexer, and every
lexer tokenizes a document as one unclassified token holding the whole
text. -/
def trivLib : Lib where
  guessForFilename := fun _ _ => .error .classNotFound
  contentGuess := fun _ => .TextLexer
  tokenize := fun _ s => [⟨[], s.data⟩]

theorem trivLib_faithful : trivLib.Faithful := by
  intro lx s
  constructor
  · show catMap Token.lex [⟨[], s.data⟩] = s.data
    rw [catMap, catMap, List.append_nil]
  · intro t ht c hc
    have : t = ⟨[], s.data⟩ := List.mem_singleton.mp ht
    subst this
    simp at hc

/-! ## The claims -/

/-- C1: for every content text and filename hint the lexer is selected by the
exact priority order of the source's try/except chain: a successful
filename+content guess wins; if and only if that guess fails with
ClassNotFound, the content-only guess is used when the content starts with
the two-character shebang marker and the plain-text lexer otherwise; a
TypeError failure selects the plain-text lexer directly, bypassing the
shebang check. -/
theorem C1_lexer_priority (r : Except GuessErr Lexer) (data : String) (g : String → Lexer) :
    (∀ lx, r = .ok lx → chooseLexer r data g = lx) ∧
    (r = .error .classNotFound → shebangCheck data = true → chooseLexer r data g = g data) ∧
    (r = .error .classNotFound → shebangCheck data = false →
      chooseLexer r data g = .TextLexer) ∧
    (r = .error .typeError → chooseLexer r data g = .TextLexer) := by
  refine ⟨?_, ?_, ?_, ?_⟩
  · rintro lx rfl; rfl
  · rintro rfl h; simp [chooseLexer, h]
  · rintro rfl h; simp [chooseLexer, h]
  · rintro rfl; rfl

/-- Witness for C1 at concrete inputs: shebang content under ClassNotFound
uses the content guess, non-shebang content falls back to plain text, and
TypeError bypasses the shebang check even for shebang content. -/
theorem C1_lexer_priority_witness :
    chooseLexer (.error .classNotFound) "#!/bin/sh" (fun _ => .named "sh") = .named "sh" ∧
    chooseLexer (.error .classNotFound) "print" (fun _ => .named "sh") = .TextLexer ∧
    chooseLexer (.error .typeError) "#!/bin/sh" (fun _ => .named "sh") = .TextLexer :=
  ⟨(C1_lexer_priority (.error .classNotFound) "#!/bin/sh" (fun _ => .named "sh")).2.1 rfl
      (by decide),
   (C1_lexer_priority (.error .classNotFound) "print" (fun _ => .named "sh")).2.2.1 rfl
      (by decide),
   (C1_lexer_priority (.error .typeError) "#!/bin/sh" (fun _ => .named "sh")).2.2.2 rfl⟩

/-- C2: for all input text and filename hint the rendered output is wrapped
in a single top-level container carrying the fixed CSS class highlight, and
contains no occurrence of the substring of an embedded style block opener
and no inline style attribute occurrence. -/
theorem C2_css_class_only (L : Lib) (hL : L.Faithful) (T F : String) :
    (∃ body, (render L T F).data =
      "<div class=\"highlight\">".data ++ body ++ "</div>".data) ∧
    ¬ ("<style".data <:+: (render L T F).data) ∧
    ¬ ("style=\"".data <:+: (render L T F).data) := by
  have hd : (render L T F).data =
      renderToks (L.tokenize (chooseLexer (L.guessForFilename F T) T L.contentGuess) T) := rfl
  have hcls := (hL (chooseLexer (L.guessForFilename F T) T L.contentGuess) T).2
  refine ⟨?_, ?_, ?_⟩
  · refine ⟨"<pre>".data ++
      catMap fmtTok (L.tokenize (chooseLexer (L.guessForFilename F T) T L.contentGuess) T) ++
      "</pre>".data, ?_⟩
    rw [hd, renderToks_container]
    simp [List.append_assoc]
  · intro h
    have h2 : ("<st".data <:+: (render L T F).data) :=
      List.IsInfix.trans ⟨[], "yle".data, by decide⟩ h
    rw [hd] at h2
    have h3 : hasTriple '<' 's' 't'
        (renderToks (L.tokenize (chooseLexer (L.guessForFilename F T) T L.contentGuess) T)) =
          true :=
      (hasTriple_iff_occurs _ _ _ _).mpr h2
    rw [renderToks_noA _ hcls] at h3
    exact Bool.false_ne_true h3
  · intro h
    have h2 : ("e=\"".data <:+: (render L T F).data) :=
      List.IsInfix.trans ⟨"styl".data, [], by decide⟩ h
    rw [hd] at h2
    have h3 : hasTriple 'e' '=' '"'
        (renderToks (L.tokenize (chooseLexer (L.guessForFilename F T) T L.contentGuess) T)) =
          true :=
      (hasTriple_iff_occurs _ _ _ _).mpr h2
    rw [renderToks_noB _ hcls] at h3
    exact Bool.false_ne_true h3

/-- Witness for C2 at a concrete run whose content even contains the word
style and markup characters. -/
theorem C2_css_class_only_witness :
    (∃ body, (render trivLib "a<style x=\"y\">" "a.py").data =
      "<div class=\"highlight\">".data ++ body ++ "</div>".data) ∧
    ¬ ("<style".data <:+: (render trivLib "a<style x=\"y\">" "a.py").data) ∧
    ¬ ("style=\"".data <:+: (render trivLib "a<style x=\"y\">" "a.py").data) :=
  C2_css_class_only trivLib trivLib_faithful "a<style x=\"y\">" "a.py"

/-- C3: rendering with an empty filename hint always succeeds: the two
except clauses of the source cover both failure classes of the filename
guess, so no failure value escapes the filter boundary and the result is the
fallback-chain rendering. -/
theorem C3_render_total (L : Lib) (T : String) :
    renderE L T "" = .ok (render L T "") := by
  rw [renderE, selectLexerE_ok]
  rfl

/-- C4: the process exits 0 on every run whose stdin read succeeds,
whichever lexer the fallback chain selected, and exits non-zero exactly on
the unrecoverable read failure. -/
theorem C4_exit_codes (L : Lib) (bytes : List Nat) (argv : List String) (e : Unit) :
    (process L (.ok bytes) argv).2 = 0 ∧ (process L (.error e) argv).2 = 1 :=
  ⟨rfl, rfl⟩

/-- C5: the number of newline characters in the visible text content of the
rendered fragment equals the number of newline characters in the input. -/
theorem C5_newline_count (L : Lib) (hL : L.Faithful) (T F : String) :
    List.count '\n' (visText false (render L T F).data) = List.count '\n' T.data := by
  have hd : (render L T F).data =
      renderToks (L.tokenize (chooseLexer (L.guessForFilename F T) T L.contentGuess) T) := rfl
  have hcls := (hL (chooseLexer (L.guessForFilename F T) T L.contentGuess) T).2
  have hlex := (hL (chooseLexer (L.guessForFilename F T) T L.contentGuess) T).1
  rw [hd, renderToks, List.append_assoc, visText_append]
  rw [show visText false ("<div class=\"highlight\"><pre>".data) = [] from by decide]
  rw [show visSt false ("<div class=\"highlight\"><pre>".data) = false from by decide]
  rw [List.nil_append, visText_body _ hcls, count_nl_body, hlex]

/-- Witness for C5 at a two-line concrete document. -/
theorem C5_newline_count_witness :
    List.count '\n' (visText false (render trivLib "a\nb\n" "f.txt").data) =
      List.count '\n' ("a\nb\n" : String).data :=
  C5_newline_count trivLib trivLib_faithful "a\nb\n" "f.txt"

/-- C6: decoding is idempotent on valid input: a byte sequence that is the
UTF-8 encoding of a text decodes back to exactly that text, and a
replacement character can appear in the decoding of a valid sequence only
where the original text itself contained one. -/
theorem C6_decode_valid_utf8 (s : List Char) :
    decodeUtf8 (encodeUtf8 s) = s ∧
    (replChar ∈ decodeUtf8 (encodeUtf8 s) → replChar ∈ s) := by
  have h := decode_encode s
  exact ⟨h, fun hm => by rwa [h] at hm⟩

/-- Witness for C6 on a text spanning all four UTF-8 encoding lengths, and
on a text that itself contains the replacement character. -/
theorem C6_decode_valid_utf8_witness :
    decodeUtf8 (encodeUtf8 ['a', Char.ofNat 0xDF, Char.ofNat 0x20AC, Char.ofNat 0x1F600]) =
      ['a', Char.ofNat 0xDF, Char.ofNat 0x20AC, Char.ofNat 0x1F600] ∧
    replChar ∈ (['a', replChar] : List Char) :=
  ⟨(C6_decode_valid_utf8 ['a', Char.ofNat 0xDF, Char.ofNat 0x20AC, Char.ofNat 0x1F600]).1,
   (C6_decode_valid_utf8 ['a', replChar]).2 (by decide)⟩

/-- C7: the filename hint is the first positional argument and an omitted
argument behaves exactly like an explicit empty string: the hint is the
empty string and the whole run is identical. -/
theorem C7_default_filename (L : Lib) (stdin : Except Unit (List Nat)) (p : String) :
    argFilename [p] = "" ∧ process L stdin [p] = process L stdin [p, ""] := by
  refine ⟨rfl, ?_⟩
  cases stdin with
  | error e => rfl
  | ok bytes => rfl

/-- C8: output is all-or-nothing: either the trace is empty (the run aborted
before anything was produced) or the run read stdin and then wrote the one
complete rendered fragment; no other write can occur. -/
theorem C8_atomic_output (L : Lib) (stdin : Except Unit (List Nat)) (argv : List String) :
    (process L stdin argv).1 = [] ∨
    ∃ bytes, stdin = .ok bytes ∧ (process L stdin argv).1 =
      [Ev.readStdin,
       Ev.wroteStdout (render L (⟨decodeUtf8 bytes⟩ : String) (argFilename argv))] := by
  cases stdin with
  | error e => exact .inl rfl
  | ok bytes => exact .inr ⟨bytes, rfl, rfl⟩

/-- C9: the shebang test is total and safe at the boundary: content of
length at most one never passes the test, so under ClassNotFound such
content selects the plain-text lexer. -/
theorem C9_short_content (data : String) (g : String → Lexer) (h : data.length ≤ 1) :
    shebangCheck data = false ∧
    chooseLexer (.error .classNotFound) data g = .TextLexer := by
  have hlen : data.data.length ≤ 1 := h
  have hd : data.data.take 2 = data.data := List.take_of_length_le (by omega)
  have hs : shebangCheck data = false := by
    rw [shebangCheck, decide_eq_false_iff_not]
    intro heq
    rw [hd] at heq
    have : data.data.length = 2 := by rw [heq]; rfl
    omega
  refine ⟨hs, ?_⟩
  rw [chooseLexer]
  simp [hs]

/-- Witness for C9 at the one-character content consisting of just the hash
mark. -/
theorem C9_short_content_witness :
    shebangCheck "#" = false ∧
    chooseLexer (.error .classNotFound) "#" (fun _ => .named "sh") = .TextLexer :=
  C9_short_content "#" (fun _ => .named "sh") (by decide)

/-- C10: command-line arguments beyond the first are ignored: two runs with
the same stdin and the same first argument produce identical traces and exit
codes whatever additional arguments are present. -/
theorem C10_extra_args_ignored (L : Lib) (stdin : Except Unit (List Nat)) (p a : String)
    (r₁ r₂ : List String) :
    process L stdin (p :: a :: r₁) = process L stdin (p :: a :: r₂) := by
  cases stdin with
  | error e => rfl
  | ok bytes =>
    have harg : argFilename (p :: a :: r₁) = argFilename (p :: a :: r₂) := by
      have h₁ : 1 < (p :: a :: r₁).length := by simp
      have h₂ : 1 < (p :: a :: r₂).length := by simp
      rw [argFilename, dif_pos h₁, argFilename, dif_pos h₂]
      simp
    simp [process, harg]

end CgitLG
